import Mathlib

/-!
Shallow embedding of `lopper/assists/isospec.py` (the isolation-spec
resolver/compiler) and proofs about the claims of its specification.

Conventions of the embedding:
* Python dictionary fields that may be absent become `Option` fields;
  reading an absent key (which raises `KeyError` in Python) is modelled by
  matching on the `Option`.
* A Python function that can terminate the process (`os._exit`), raise an
  exception that its caller does not catch, or return normally is modelled
  with the `PyOut` outcome type below.
* The regular expressions that occur in the source are reduced to the
  substring searches they denote on the concrete patterns of the two static
  maps: `re.search("APU*", s)` succeeds iff `"AP"` occurs in `s` (the `U*`
  can match empty), `re.search("RPU*", s)` iff `"RP"` occurs,
  `re.search("DDR0", s)` iff `"DDR0"` occurs, `re.search("OCM.*", s)` iff
  `"OCM"` occurs, and `re.search("cpu@" + n, s)` (with `n` a decimal
  string) iff `"cpu@" ++ n` occurs in `s`.
* `re.match(r'.*?(\d+)', s)` captures the first maximal run of decimal
  digits of `s`; this is `firstDigitRun` below.
-/

namespace Isospec

/-- A JSON-ish scalar value as found in the spec's `flags` dictionaries
(booleans or strings; Python truthiness is `jTruthy`). -/
inductive JVal where
  | b (v : Bool)
  | s (v : String)
  deriving Repr, DecidableEq

/-- Python truthiness of a `JVal`. -/
def JVal.truthy : JVal → Bool
  | .b v => v
  | .s v => v ≠ ""

/-- A destination record of the isolation spec (§3 Destination): `name` is
required by the data model, the other keys are optional. `mem` holds the
value of the `mem` key when the key is present. -/
structure Dest where
  name : String
  addr : Option String := none
  size : Option String := none
  nodeid : Option Nat := none
  mem : Option Bool := none
  deriving Repr, DecidableEq

/-- An access-list record of the isolation spec (§3 AccessEntry): a plain
dictionary whose keys may each be absent. -/
structure AccessRec where
  same_as_default : Option String := none
  type : Option String := none
  name : Option String := none
  destinations : Option (List String) := none
  SMIDs : Option (List String) := none
  flags : Option (List (String × JVal)) := none
  deriving Repr, DecidableEq

/-- The parent (cluster) of a CPU hardware node: only its `label` and
`name` are consulted by the source. -/
structure Cluster where
  label : String
  name : String
  deriving Repr, DecidableEq

/-- A hardware-description-tree node, restricted to the fields the source
reads: `name`, `label`, `device_type` (a list of strings, absent key =
`none`), `reg` (the raw 32-bit cells, absent key = `none`), `parent`. -/
structure HWNode where
  name : String
  label : String := ""
  device_type : Option (List String) := none
  reg : Option (List Nat) := none
  parent : Option Cluster := none
  deriving Repr, DecidableEq

/-- The three query primitives the source uses on the hardware tree
(`sdt.tree.cnodes`, `sdt.tree.nodes`, `sdt.tree.addr_node`). -/
structure SDT where
  cnodes : String → List HWNode
  nodes : String → List HWNode
  addr_node : String → Option HWNode

/-- The queries the source makes on the loaded isolation-spec tree:
the access list of `/default_settings/subsystems/default` (collapsed to
`none` when any of the path components is missing), and the list of
`destinations` properties found anywhere in the tree (one inner list per
node that carries the property). -/
structure SpecTree where
  defaultAccess : Option (List AccessRec)
  destNodes : List (List Dest)

/-- Outcome of running a piece of the Python source: `exit code` for
`os._exit(code)`, `raise` for an exception the modelled fragment does not
catch, `ok` for a normal return. -/
inductive PyOut (α : Type) where
  | exit (code : Nat)
  | raise
  | ok (v : α)
  deriving Repr, DecidableEq

/-! ### String helpers (the reduced regex operations) -/

/-- Does `pat` occur as a contiguous run inside `l`? (Substring search on
character lists; the meaning of `re.search` for the literal patterns of the
static maps.) -/
def containsSub (pat : List Char) : List Char → Bool
  | [] => pat.isEmpty
  | c :: rest => pat.isPrefixOf (c :: rest) || containsSub pat rest

/-- `strContains s pat` is `re.search(pat, s)` for the reduced literal
patterns. -/
def strContains (s pat : String) : Bool :=
  containsSub pat.data s.data

/-- The first maximal run of decimal digits of a character list, if any:
the capture of `re.match(r'.*?(\d+)', s)`. -/
def firstDigitRunAux : List Char → Option (List Char)
  | [] => none
  | c :: rest =>
    if c.isDigit then some (c :: rest.takeWhile Char.isDigit)
    else firstDigitRunAux rest

/-- The capture of `re.match(r'.*?(\d+)', s)` as a string. -/
def firstDigitRun (s : String) : Option String :=
  (firstDigitRunAux s.data).map (fun l => String.mk l)

/-- The trailing run of decimal digits of a name, if any (the spec's words
"a trailing decimal integer from the name"; for comparison with the code's
`firstDigitRun`). -/
def trailingDigitRun (s : String) : Option String :=
  let r := (s.data.reverse.takeWhile Char.isDigit).reverse
  if r.isEmpty then none else some (String.mk r)

/-- Decimal digit string to `Nat` (Python `int` on a digit-only string). -/
def decToNat (s : String) : Nat :=
  s.data.foldl (fun a c => a * 10 + (c.toNat - '0'.toNat)) 0

/-- Value of one hex digit, if valid. -/
def hexDigitVal (c : Char) : Option Nat :=
  if '0' ≤ c ∧ c ≤ '9' then some (c.toNat - '0'.toNat)
  else if 'a' ≤ c ∧ c ≤ 'f' then some (c.toNat - 'a'.toNat + 10)
  else if 'A' ≤ c ∧ c ≤ 'F' then some (c.toNat - 'A'.toNat + 10)
  else none

/-- Fold a list of hex digits; `none` on an invalid digit. -/
def hexDigitsVal : List Char → Nat → Option Nat
  | [], acc => some acc
  | c :: rest, acc =>
    match hexDigitVal c with
    | some d => hexDigitsVal rest (acc * 16 + d)
    | none => none

/-- Python `int(s, 16)` restricted to the forms the spec uses: an optional
`0x`/`0X` prefix followed by a nonempty run of hex digits; `none` models
the `ValueError` on anything else. -/
def pyIntHex (s : String) : Option Nat :=
  let cs := s.data
  let cs := match cs with
    | '0' :: 'x' :: rest => rest
    | '0' :: 'X' :: rest => rest
    | other => other
  if cs.isEmpty then none else hexDigitsVal cs 0

/-- Python `hex(n)` for a nonnegative `n`: `"0x"` followed by lowercase
hex digits. -/
def hexStr (n : Nat) : String :=
  "0x" ++ String.mk (Nat.toDigits 16 n)

/-- `set_bit(value, bit)` of the source: `value | (1 << bit)`. -/
def set_bit (value bit : Nat) : Nat :=
  value ||| (1 <<< bit)

/-! ### The static pattern maps -/

/-- The value attached to a CPU name pattern in
`iso_cpus_to_device_tree_map`. -/
structure CpuMapEntry where
  compatible : String
  el : Option Nat
  deriving Repr, DecidableEq

/-- `iso_cpus_to_device_tree_map`, with each key regex reduced to the
substring it denotes: `"APU*"` searches for `"AP"`, `"RPU*"` for
`"RP"`. -/
def iso_cpus_to_device_tree_map : List (String × CpuMapEntry) :=
  [("AP", ⟨"arm,cortex-a72", some 3⟩),
   ("RP", ⟨"arm,cortex-r5", none⟩)]

/-- The dictionary scan `for n,dn in iso_cpus_to_device_tree_map.items():
if re.search(n, cpu_name): cpu_map = dn` — the last matching entry wins,
`none` when nothing matches. -/
def lookupCpuMap (cpu_name : String) : Option CpuMapEntry :=
  iso_cpus_to_device_tree_map.foldl
    (fun acc p => if strContains cpu_name p.1 then some p.2 else acc) none

/-- `iso_memory_device_map`, keys reduced as for the CPU map: `"DDR0"`
searches for `"DDR0"`, `"OCM.*"` for `"OCM"`. The value is the pair
(memory type, hardware node-name pattern or `none`). -/
def iso_memory_device_map : List (String × (String × Option String)) :=
  [("DDR0", ("memory", some "memory@.*")),
   ("OCM", ("sram", none))]

/-- The last-match scan shared by `isospec_memory_type` and
`isospec_memory_dest`. -/
def memMapLookup (name : String) : Option (String × Option String) :=
  iso_memory_device_map.foldl
    (fun acc p => if strContains name p.1 then some p.2 else acc) none

/-- `isospec_memory_type(name)`: the type of the last matching map entry,
`""` when nothing matches. -/
def isospec_memory_type (name : String) : String :=
  match memMapLookup name with
  | some v => v.1
  | none => ""

/-- `isospec_memory_dest(name)`: the node pattern of the last matching map
entry; `""` when nothing matches (and, faithful to the source, the `None`
stored for sram entries is also returned as the falsy `""`). -/
def isospec_memory_dest (name : String) : String :=
  match memMapLookup name with
  | some v => v.2.getD ""
  | none => ""

/-! ### CpuResolver (`isospec_process_cpus`) -/

/-- A resolved CPU entry (§3 ResolvedCpu): `el = none` when the mode mask
was falsy and the `el` key is omitted from the output. -/
structure CpuEntry where
  dev : String
  spec_name : String
  cluster : String
  cpumask : String
  secure : JVal
  el : Option String
  deriving Repr, DecidableEq

/-- First key lookup in an association-list flags dictionary. -/
def jLookup (k : String) (fl : List (String × JVal)) : Option JVal :=
  (fl.find? (fun p => p.1 == k)).map (·.2)

/-- What one iteration of the SMID loop of `isospec_process_cpus` does.
`dtc` is the current value of the local variable `device_tree_compat`
(`none` = not yet bound; reading it unbound raises `UnboundLocalError`). -/
inductive CpuStep where
  | raise
  | retNone
  | skip (dtc : Option String)
  | emit (dtc : Option String) (e : CpuEntry)
  deriving Repr, DecidableEq

/-- One iteration of the `for cpu_name in cpus:` loop of
`isospec_process_cpus`. Faithful points: an unmatched name only logs an
error and leaves `device_tree_compat` at its previous (possibly unbound)
value; the `else` branch on a falsy `device_tree_compat` evaluates
`cpus_info[c]` with an unbound/stale `c` and raises; the core mask search
is `re.search("cpu@" + cpu_number, c.name)` over all compatible nodes; an
`el` of `None` in the map and a mode mask of `0` land in the same output
branch (no `el` key), so both are modelled as mask `0`. -/
def cpuStep (cpu_flags : List (String × JVal)) (sdt : SDT)
    (dtc : Option String) (cpu_name : String) : CpuStep :=
  let cpu_map := lookupCpuMap cpu_name
  let dtc' := match cpu_map with
    | some m => some m.compatible
    | none => dtc
  match dtc' with
  | none => .raise
  | some compat =>
    if compat == "" then .raise
    else
      let cpu_number := firstDigitRun cpu_name
      match sdt.cnodes compat with
      | [] => .skip dtc'
      | n0 :: rest =>
        match n0.parent with
        | none => .retNone
        | some cluster =>
          let cluster_name := if cluster.label != "" then cluster.label else cluster.name
          let cluster_mask :=
            match cpu_number with
            | some num =>
              (n0 :: rest).foldl
                (fun m c => if strContains c.name ("cpu@" ++ num) then set_bit m (decToNat num) else m) 0
            | none => 0xf
          let secure := (jLookup "secure" cpu_flags).getD (.b false)
          let mode_mask : Nat :=
            match jLookup "mode" cpu_flags with
            | some v => if v == .s "el" then set_bit (set_bit 0 0) 1 else 0
            | none =>
              match cpu_map with
              | some m => m.el.getD 0
              | none => 0
          if mode_mask != 0 then
            .emit dtc' ⟨cluster_name, cpu_name, cluster_name, hexStr cluster_mask,
                        secure, some (hexStr mode_mask)⟩
          else
            .emit dtc' ⟨cluster_name, cpu_name, cluster_name, hexStr cluster_mask,
                        secure, none⟩

/-- The SMID loop, threading `device_tree_compat` and the accumulator. -/
def cpusGo (cpu_flags : List (String × JVal)) (sdt : SDT) :
    List String → Option String → List CpuEntry → PyOut (Option (List CpuEntry))
  | [], _, acc => .ok (some acc)
  | cpu_name :: rest, dtc, acc =>
    match cpuStep cpu_flags sdt dtc cpu_name with
    | .raise => .raise
    | .retNone => .ok none
    | .skip d => cpusGo cpu_flags sdt rest d acc
    | .emit d e => cpusGo cpu_flags sdt rest d (acc ++ [e])

/-- `isospec_process_cpus(cpus_info, sdt, json_tree)`: reads
`cpus_info["SMIDs"]` (raising when absent), reads `cpus_info["flags"]`
with an empty-dict fallback, and runs the SMID loop. Returns
`ok none` on the early `return None` (parentless cluster). -/
def isospec_process_cpus (cpus_info : AccessRec) (sdt : SDT) :
    PyOut (Option (List CpuEntry)) :=
  match cpus_info.SMIDs with
  | none => .raise
  | some cpus => cpusGo (cpus_info.flags.getD []) sdt cpus none []

/-! ### DeviceFlagsExtractor, DefaultSettingsResolver, DestinationLookup -/

/-- `isospec_device_flags(device_name, defs, json_tree)` on the dictionary
shape (the shape every access record of the loaded JSON tree has): collect
the names of the flags whose value is truthy; a missing `flags` key yields
the empty mapping. -/
def isospec_device_flags (defs : AccessRec) : List String :=
  match defs.flags with
  | some fl => (fl.filter (fun p => p.2.truthy)).map (·.1)
  | none => []

/-- `isospec_device_defaults(device_name, json_tree)`: scan the access list
of `/default_settings/subsystems/default` for the first record named
`device_name`. Faithful point: the list comprehension
`[d for d in access_list if d["name"] == device_name][0]` evaluates
`d["name"]` on every record before indexing, so any record without a
`name` key raises and the whole lookup returns `None`; an empty result
list (IndexError) also returns `None`. -/
def isospec_device_defaults (device_name : String) (jt : SpecTree) :
    Option AccessRec :=
  match jt.defaultAccess with
  | none => none
  | some l =>
    if l.all (fun d => d.name.isSome) then
      (l.filter (fun d => d.name == some device_name)).head?
    else none

/-- `isospec_device_destination(destination_list, json_tree)`: for each
requested name, scan every `destinations` property in the spec tree and
collect every record whose `name` equals the requested name (order:
outer loop over requested names, inner over the property-carrying nodes,
innermost over each property's records). -/
def isospec_device_destination (destination_list : List String)
    (jt : SpecTree) : List Dest :=
  destination_list.flatMap (fun destination =>
    jt.destNodes.flatMap (fun dests =>
      dests.filter (fun x => x.name == destination)))

/-! ### MemoryResolver (`isospec_process_memory`) -/

/-- A resolved memory/SRAM entry (§3 ResolvedMemory). -/
structure MemEntry where
  dev : String
  spec_name : String
  start : String
  size : String
  deriving Repr, DecidableEq

/-- `lopper_lib.chunks(value, 4)`: successive slices of four cells (the
last slice may be shorter). -/
def chunks4 : List Nat → List (List Nat)
  | [] => []
  | [a] => [[a]]
  | [a, b] => [[a, b]]
  | [a, b, c] => [[a, b, c]]
  | a :: b :: c :: d :: rest => [a, b, c, d] :: chunks4 rest

/-- `int.from_bytes(encode_byte_array(cells), "big")` for a list of 32-bit
cells: each cell contributes four big-endian bytes, so the value is the
base-`2^32` reading of the list (faithful for cells below `2^32`, the
device-tree cell range). -/
def cellsToNat (cells : List Nat) : Nat :=
  cells.foldl (fun a c => a * 2 ^ 32 + c) 0

/-- The decoded start address of a four-cell register chunk
(`reg_chunk[0:address_cells]` with `address_cells = 2`). -/
def chunkStart (ch : List Nat) : Nat := cellsToNat (ch.take 2)

/-- The decoded size of a four-cell register chunk
(`reg_chunk[address_cells:]`). -/
def chunkSize (ch : List Nat) : Nat := cellsToNat (ch.drop 2)

/-- The body of the `for n in possible_mem_nodes:` loop of the memory
branch of `isospec_process_memory`, for one candidate node: the per-node
`try` skips the node when `device_type` or (after the "memory" test
passes) `reg` is absent; otherwise every decoded `(start, size)` chunk
whose range `[start, start + size]` contains `dest_start` (both bounds
inclusive) emits an entry carrying the decoded hardware values as hex
strings. -/
def node_mem_entries (dest_start : Nat) (name : String) (n : HWNode) :
    List MemEntry :=
  match n.device_type, n.reg with
  | some dts, some reg =>
    if dts.contains "memory" then
      (chunks4 reg).filterMap (fun ch =>
        if dest_start ≥ chunkStart ch ∧ dest_start ≤ chunkStart ch + chunkSize ch then
          some ⟨name, name, hexStr (chunkStart ch), hexStr (chunkSize ch)⟩
        else none)
    else []
  | _, _ => []

/-- `isospec_process_memory(name, dest, sdt, json_tree)`. Faithful points:
* a destination without a `mem` key whose name classifies as `"sram"`
  through the pattern map hits `os._exit(1)` (the debug block at the top
  of the function);
* when the first classification is `"memory"` but the hardware query
  returns no node, the type and pattern are recomputed from the name (so
  an explicitly `mem`-tagged destination can be reclassified as sram);
* `dest['addr']` and `dest['size']` are read unconditionally after the
  node query; a missing key or unparsable address raises to the caller;
* the sram branch with a hardware node at the address only warns ("no
  processing is implemented") and emits nothing; without a node it emits
  the spec's `addr`/`size` strings verbatim. -/
def isospec_process_memory (name : String) (dest : Dest) (sdt : SDT) :
    PyOut (List MemEntry) :=
  let firstPass : Option (String × String) :=
    match dest.mem with
    | some _ => some ("memory@.*", "memory")
    | none =>
      if isospec_memory_type name == "sram" then none
      else some (isospec_memory_dest name, isospec_memory_type name)
  match firstPass with
  | none => .exit 1
  | some (memory_dest₀, memory_type₀) =>
    let possible_mem_nodes :=
      if memory_type₀ == "memory" then sdt.nodes memory_dest₀ else []
    let memory_type :=
      if possible_mem_nodes.isEmpty then isospec_memory_type name else memory_type₀
    match dest.addr, dest.size with
    | some addrStr, some sizeStr =>
      match pyIntHex addrStr with
      | none => .raise
      | some dest_start =>
        if memory_type == "memory" then
          .ok (possible_mem_nodes.flatMap (node_mem_entries dest_start name))
        else if memory_type == "sram" then
          match sdt.addr_node addrStr with
          | some _ => .ok []
          | none => .ok [⟨name, name, addrStr, sizeStr⟩]
        else .ok []
    | _, _ => .raise

/-! ### DestinationResolver (`isospec_process_access`) -/

/-- A resolved access entry (§3 ResolvedAccess); `flags` is the list of
flag names mapped to `True` by the flags extractor. -/
structure AccEntry where
  dev : String
  spec_name : String
  label : String
  flags : List String
  deriving Repr, DecidableEq

/-- The four output lists of one `isospec_process_access` run:
access, cpus, memory, sram. -/
structure FourLists where
  access : List AccEntry
  cpus : List CpuEntry
  memory : List MemEntry
  sram : List MemEntry
  deriving Repr, DecidableEq

/-- What one destination of a device entry contributes. -/
inductive DContrib where
  | acc (e : AccEntry)
  | mem (l : List MemEntry)
  | sram (l : List MemEntry)
  | drop
  deriving Repr, DecidableEq

/-- The body of the `for d in dests:` loop of the device branch of
`isospec_process_access` (the `try` at the address match together with its
`except` block). Faithful points:
* a successful `sdt.tree.addr_node` lookup emits an access entry with the
  matched node's name and label;
* a missing `addr` key or a failed address lookup lands in the `except`
  block: with a `mem` key present, the type comes from the name map with a
  `"memory"` fallback and the truthiness of the `mem` *value* decides
  whether memory processing runs; without a `mem` key, the type and the
  `mem_found` decision both come from the name map;
* `isospec_process_memory`'s `os._exit` propagates; its exceptions abort
  the remaining destinations of the entry (`raise`);
* a falsy `mem_found` only logs a warning and drops the destination. -/
def destStep (flag_mapping : List String) (d : Dest) (sdt : SDT) :
    PyOut DContrib :=
  let viaMemory : String → PyOut DContrib := fun memory_type =>
    match isospec_process_memory d.name d sdt with
    | .exit c => .exit c
    | .raise => .raise
    | .ok ml =>
      if memory_type == "memory" then .ok (.mem ml)
      else if memory_type == "sram" then .ok (.sram ml)
      else .ok .drop
  let exceptBranch : PyOut DContrib :=
    match d.mem with
    | some mval =>
      let memory_type :=
        if isospec_memory_type d.name == "" then "memory"
        else isospec_memory_type d.name
      if mval then viaMemory memory_type else .ok .drop
    | none =>
      let memory_type := isospec_memory_type d.name
      if (memMapLookup d.name).isSome then viaMemory memory_type
      else .ok .drop
  match d.addr with
  | some address =>
    match sdt.addr_node address with
    | some tnode => .ok (.acc ⟨tnode.name, d.name, tnode.label, flag_mapping⟩)
    | none => exceptBranch
  | none => exceptBranch

/-- Apply one destination's contribution to the four accumulator lists. -/
def applyContrib (c : DContrib) (L : FourLists) : FourLists :=
  match c with
  | .acc e => { L with access := L.access ++ [e] }
  | .mem l => { L with memory := L.memory ++ l }
  | .sram l => { L with sram := L.sram ++ l }
  | .drop => L

/-- The destination loop: an exception inside a destination's `except`
block aborts the remaining destinations of the entry but keeps the
contributions already appended (the outer per-entry `except: pass`). -/
def destsGo (flag_mapping : List String) (sdt : SDT) :
    List Dest → FourLists → PyOut FourLists
  | [], L => .ok L
  | d :: rest, L =>
    match destStep flag_mapping d sdt with
    | .exit c => .exit c
    | .raise => .ok L
    | .ok c => destsGo flag_mapping sdt rest (applyContrib c L)

/-- One entry of the access list (the body of the `for a in ...` loop of
`isospec_process_access`, whole-entry `try/except: pass` included).
Faithful points:
* a `same_as_default` entry whose defaults are not found proceeds with
  `defs = None` and dies on the first subscript, so the entry is skipped;
* `access_type` defaults to `"device"` when the `type` key is absent;
* a `cpu_list` entry whose `isospec_process_cpus` call raises, or returns
  `None` (making `cpu_list.extend` raise), is skipped;
* a device entry missing `destinations` or `name` raises on the logging /
  flag-extraction subscripts and is skipped;
* an `access_type` that is neither `"cpu_list"` nor `"device"` matches no
  branch and contributes nothing. -/
def entryStep (sdt : SDT) (jt : SpecTree) (access : AccessRec)
    (L : FourLists) : PyOut FourLists :=
  let defsOpt : Option AccessRec :=
    match access.same_as_default with
    | some nm => isospec_device_defaults nm jt
    | none => some access
  match defsOpt with
  | none => .ok L
  | some defs =>
    let access_type := defs.type.getD "device"
    if access_type == "cpu_list" then
      match defs.SMIDs with
      | none => .ok L
      | some _ =>
        match isospec_process_cpus defs sdt with
        | .exit c => .exit c
        | .raise => .ok L
        | .ok none => .ok L
        | .ok (some l) => .ok { L with cpus := L.cpus ++ l }
    else if access_type == "device" then
      match defs.destinations, defs.name with
      | some destNames, some _ =>
        let flag_mapping := isospec_device_flags defs
        let dests := isospec_device_destination destNames jt
        destsGo flag_mapping sdt dests L
      | _, _ => .ok L
    else .ok L

/-- The entry loop of `isospec_process_access`. -/
def accessGo (sdt : SDT) (jt : SpecTree) :
    List AccessRec → FourLists → PyOut FourLists
  | [], L => .ok L
  | a :: rest, L =>
    match entryStep sdt jt a L with
    | .exit c => .exit c
    | .raise => accessGo sdt jt rest L
    | .ok L' => accessGo sdt jt rest L'

/-- `isospec_process_access(access_node, sdt, json_tree)`: returns the
four lists (or propagates an `os._exit`). -/
def isospec_process_access (access_node : List AccessRec) (sdt : SDT)
    (jt : SpecTree) : PyOut FourLists :=
  accessGo sdt jt access_node ⟨[], [], [], []⟩

/-! ### DomainTreeBuilder (`process_domain`) -/

/-- An output domain node, restricted to what the claims consult: its name
and the four serialized list properties (`none` = property not attached).
-/
structure DomainNode where
  name : String
  access : Option (List AccEntry) := none
  memory : Option (List MemEntry) := none
  sram : Option (List MemEntry) := none
  cpus : Option (List CpuEntry) := none
  deriving Repr, DecidableEq

/-- `process_domain(domain_node, iso_node, json_tree, sdt)`:
`iso_access = none` models the missing `access` list (`KeyError`, logged
error, domain produced without any of the four properties). On success the
`cpus`, `memory` and `sram` lists are attached only when nonempty, while
`access` is attached unconditionally (`domain_node["access"] =
json.dumps(access_list)` sits outside any emptiness test). -/
def process_domain (iso_access : Option (List AccessRec)) (sdt : SDT)
    (jt : SpecTree) (dn : DomainNode) : PyOut DomainNode :=
  match iso_access with
  | none => .ok dn
  | some access_node =>
    match isospec_process_access access_node sdt jt with
    | .exit c => .exit c
    | .raise => .ok dn
    | .ok L =>
      .ok { dn with
            cpus := if L.cpus.isEmpty then dn.cpus else some L.cpus,
            memory := if L.memory.isEmpty then dn.memory else some L.memory,
            sram := if L.sram.isEmpty then dn.sram else some L.sram,
            access := some L.access }

/-! ### DeviceCatalogBuilder (`device_collect`) -/

/-- A device-catalog entry: reference count and the destination record. -/
structure CatEntry where
  refcount : Nat
  dest : Dest
  deriving Repr, DecidableEq

/-- The device catalog, a Python dict modelled as an ordered association
list with unique keys (insertion updates in place, else appends). -/
abbrev Catalog := List (String × CatEntry)

/-- Python `dict[k] = v`: replace in place when the key exists (keys are
unique in a Python dict, so replacing the first occurrence), else
append. -/
def dictInsert : Catalog → String → CatEntry → Catalog
  | [], k, v => [(k, v)]
  | p :: rest, k, v =>
    if p.1 == k then (k, v) :: rest else p :: dictInsert rest k v

/-- Python `k in dict`. -/
def keyMem (dd : Catalog) (k : String) : Bool :=
  dd.any (fun p => p.1 == k)

/-- Python `dict[k]` as an `Option`. -/
def dictGet (dd : Catalog) (k : String) : Option CatEntry :=
  (dd.find? (fun p => p.1 == k)).map (·.2)

/-- A cell of `/design/cells`: its `destinations` property, when the cell
carries one (the per-cell `try` skips the rest of a cell without one). -/
structure Cell where
  dests : Option (List Dest)
  deriving Repr, DecidableEq

/-- Whether `device_collect` admits a destination into the catalog: a
`nodeid` key, or a `mem` key with a truthy value (`skip_memory` is the
constant `False` in the source). -/
def catalogEligible (d : Dest) : Bool :=
  d.nodeid.isSome || d.mem.getD false

/-- The destination loop of `device_collect` for one cell. -/
def collectDests (dd : Catalog) : List Dest → Catalog
  | [] => dd
  | d :: rest =>
    if catalogEligible d then
      collectDests (dictInsert dd d.name ⟨0, d⟩) rest
    else collectDests dd rest

/-- The cell loop of `device_collect` (a cell without a `destinations`
property is skipped by its `except`). -/
def collectCells (dd : Catalog) : List Cell → Catalog
  | [] => dd
  | cell :: rest =>
    match cell.dests with
    | none => collectCells dd rest
    | some l => collectCells (collectDests dd l) rest

/-- `device_collect(isospec_json_tree)`: walk every cell of
`/design/cells`, admitting destinations with a `nodeid` or a truthy `mem`
flag, refcount 0, keyed by name (a later entry overwrites an earlier
one). -/
def device_collect (cells : List Cell) : Catalog :=
  collectCells [] cells

/-! ### ReferenceAccountant: counting pass -/

/-- The three reference-type lists of a domain node as lists of
`spec_name`s, in the order `["access", "memory", "sram"]` of the source
(`none` = property absent, the `except: continue`). -/
def domainRefLists (dn : DomainNode) : List (Option (List String)) :=
  [dn.access.map (fun l => l.map (·.spec_name)),
   dn.memory.map (fun l => l.map (·.spec_name)),
   dn.sram.map (fun l => l.map (·.spec_name))]

/-- Increment the refcount of the entry at a key (Python mutates the one
dictionary entry). -/
def incrFirst : Catalog → String → Catalog
  | [], _ => []
  | p :: rest, sn =>
    if p.1 == sn then (p.1, ⟨p.2.refcount + 1, p.2.dest⟩) :: rest
    else p :: incrFirst rest sn

/-- One list entry of the counting pass. The state carries the catalog and
whether the local `gdevice` has ever been bound: a lookup miss logs an
f-string that reads `gdevice`, which raises `NameError` when no earlier
lookup succeeded. -/
def countEntry (st : Catalog × Bool) (sn : String) : PyOut (Catalog × Bool) :=
  if keyMem st.1 sn then .ok (incrFirst st.1 sn, true)
  else if st.2 then .ok st
  else .raise

/-- Fold `countEntry` over one list of spec names. -/
def countNames (st : Catalog × Bool) : List String → PyOut (Catalog × Bool)
  | [] => .ok st
  | sn :: rest =>
    match countEntry st sn with
    | .raise => .raise
    | .exit c => .exit c
    | .ok st' => countNames st' rest

/-- One iteration of the outer domain loop of the counting pass. Faithful
point: the body reads `domain_node[...]` — the stale variable left over
from the domain-construction loop — not the loop variable `domain`, so
every iteration examines the same node `domain_node`. -/
def countDomainIter (domain_node : DomainNode) (st : Catalog × Bool) :
    PyOut (Catalog × Bool) :=
  (domainRefLists domain_node).foldl
    (fun acc lst =>
      match acc with
      | .raise => .raise
      | .exit c => .exit c
      | .ok st' =>
        match lst with
        | none => .ok st'
        | some names => countNames st' names)
    (.ok st)

/-- The counting pass of `isospec_domain` (lines 917–939): one iteration
of `countDomainIter domain_node` per element of `domains_list`. -/
def countingPass (domains_list : List DomainNode) (domain_node : DomainNode)
    (dd : Catalog) : PyOut Catalog :=
  match domains_list.foldl
    (fun (acc : PyOut (Catalog × Bool)) _ =>
      match acc with
      | .raise => .raise
      | .exit c => .exit c
      | .ok st => countDomainIter domain_node st)
    (.ok (dd, false)) with
  | .raise => .raise
  | .exit c => .exit c
  | .ok st => .ok st.1

/-- The sum of the refcounts over the catalog. -/
def sumRefcounts (dd : Catalog) : Nat :=
  (dd.map (fun p => p.2.refcount)).sum

/-- The quantity named by the specification's refcount-conservation
property: the number of (domain, list-entry) pairs, over every domain's
access, memory and sram lists, whose `spec_name` is a key of the
catalog. -/
def specTotalPairs (domains : List DomainNode) (dd : Catalog) : Nat :=
  (domains.map (fun dn =>
    ((domainRefLists dn).map (fun lst =>
      ((lst.getD []).filter (fun sn => keyMem dd sn)).length)).sum)).sum

/-! ### ReferenceAccountant: broadcast pass -/

/-- Classification of a zero-reference catalog device (lines 948–995):
an access entry when the hardware tree has a node at the destination's
address (a missing `addr` key makes `tnode = None`); else a memory entry
when the destination carries the `mem`, `addr` and `size` keys (the `mem`
*value* is not tested); else neither (dropped with a debug note). -/
inductive BClass where
  | dev (e : AccEntry)
  | mem (e : MemEntry)
  | skip
  deriving Repr, DecidableEq

/-- Classify one unreferenced catalog destination. -/
def classifyUnref (sdt : SDT) (d : Dest) : BClass :=
  match d.addr.bind sdt.addr_node with
  | some tnode => .dev ⟨tnode.name, d.name, tnode.label, []⟩
  | none =>
    match d.mem, d.addr, d.size with
    | some _, some a, some s => .mem ⟨d.name, d.name, a, s⟩
    | _, _, _ => .skip

/-- Add a classified broadcast entry to one domain. Faithful point: the
access append reads `json.loads(domain["access"].value)` with no
`try`, so a domain without an `access` property raises; the memory append
falls back to the empty list. -/
def addToDomain (c : BClass) (dn : DomainNode) : PyOut DomainNode :=
  match c with
  | .skip => .ok dn
  | .dev e =>
    match dn.access with
    | none => .raise
    | some l => .ok { dn with access := some (l ++ [e]) }
  | .mem e => .ok { dn with memory := some (dn.memory.getD [] ++ [e]) }

/-- Apply `addToDomain` across the domain list. -/
def addToDomains (c : BClass) : List DomainNode → PyOut (List DomainNode)
  | [] => .ok []
  | dn :: rest =>
    match addToDomain c dn with
    | .raise => .raise
    | .exit k => .exit k
    | .ok dn' =>
      match addToDomains c rest with
      | .raise => .raise
      | .exit k => .exit k
      | .ok rest' => .ok (dn' :: rest')

/-- The broadcast pass of `isospec_domain` (lines 943–1013): every
catalog entry with refcount 0 is classified once and its single entry (if
any) appended to the corresponding list of every domain of
`domains_list`. -/
def broadcastPass (dd : Catalog) (domains_list : List DomainNode)
    (sdt : SDT) : PyOut (List DomainNode) :=
  match dd with
  | [] => .ok domains_list
  | (_, ce) :: rest =>
    if ce.refcount == 0 then
      match addToDomains (classifyUnref sdt ce.dest) domains_list with
      | .raise => .raise
      | .exit k => .exit k
      | .ok ds' => broadcastPass rest ds' sdt
    else broadcastPass rest domains_list sdt

/-- The access entries the broadcast pass adds to every domain, in catalog
order. -/
def bcastAcc (dd : Catalog) (sdt : SDT) : List AccEntry :=
  dd.filterMap (fun p =>
    if p.2.refcount == 0 then
      match classifyUnref sdt p.2.dest with
      | .dev e => some e
      | _ => none
    else none)

/-- The memory entries the broadcast pass adds to every domain, in catalog
order. -/
def bcastMem (dd : Catalog) (sdt : SDT) : List MemEntry :=
  dd.filterMap (fun p =>
    if p.2.refcount == 0 then
      match classifyUnref sdt p.2.dest with
      | .mem e => some e
      | _ => none
    else none)

/-- The effect of the whole broadcast pass on one domain node, given the
two entry lists it appends everywhere. -/
def bcastApply (aL : List AccEntry) (mL : List MemEntry)
    (dn : DomainNode) : DomainNode :=
  { dn with
    access := some (dn.access.getD [] ++ aL),
    memory := match dn.memory with
              | some l => some (l ++ mL)
              | none => if mL.isEmpty then none else some mL }

/-! ### Concrete fixtures used by counterexamples and witnesses -/

/-- A hardware tree with no nodes at all. -/
def sdtNone : SDT :=
  { cnodes := fun _ => [], nodes := fun _ => [], addr_node := fun _ => none }

/-- An empty isolation-spec tree. -/
def jtEmpty : SpecTree := { defaultAccess := none, destNodes := [] }

/-- An SRAM-named destination with no explicit `mem` key. -/
def ocmDest : Dest :=
  { name := "OCM0", addr := some "0xFFFC0000", size := some "0x10000" }

/-- A spec tree whose only `destinations` property holds `ocmDest`. -/
def jtOcm : SpecTree := { defaultAccess := none, destNodes := [[ocmDest]] }

/-- An inline device access entry referencing `OCM0`. -/
def recOcm : AccessRec :=
  { name := some "ocm_access", destinations := some ["OCM0"] }

/-- A CPU cluster node with no label. -/
def cluster0 : Cluster := { label := "", name := "cluster0" }

/-- Hardware node `cpu@0` in `cluster0`. -/
def cpuNode0 : HWNode := { name := "cpu@0", parent := some cluster0 }

/-- Hardware node `cpu@2` in `cluster0`. -/
def cpuNode2 : HWNode := { name := "cpu@2", parent := some cluster0 }

/-- A hardware tree whose only `arm,cortex-a72` node is `cpu@0`. -/
def sdtCpu0 : SDT :=
  { cnodes := fun s => if s == "arm,cortex-a72" then [cpuNode0] else [],
    nodes := fun _ => [], addr_node := fun _ => none }

/-- A hardware tree whose only `arm,cortex-a72` node is `cpu@2`. -/
def sdtCpu2 : SDT :=
  { cnodes := fun s => if s == "arm,cortex-a72" then [cpuNode2] else [],
    nodes := fun _ => [], addr_node := fun _ => none }

/-- A `cpu_list` access entry whose first SMID matches no pattern and
whose second is a valid APU name. -/
def recSmidBad : AccessRec :=
  { type := some "cpu_list", SMIDs := some ["XYZ", "APU0"] }

/-- The same batch without the unmatched SMID. -/
def recSmidGood : AccessRec :=
  { type := some "cpu_list", SMIDs := some ["APU0"] }

/-- The entry the valid `APU0` SMID alone produces against `sdtCpu0`. -/
def apu0Entry : CpuEntry :=
  ⟨"cluster0", "APU0", "cluster0", "0x1", .b false, some "0x3"⟩

/-- A `cpu_list` entry whose one SMID has distinct first (`1`) and
trailing (`2`) digit runs. -/
def recSmidMixed : AccessRec :=
  { type := some "cpu_list", SMIDs := some ["APU1x2"] }

/-- A catalog destination: a device with a `nodeid`. -/
def uartDest : Dest :=
  { name := "uart0", addr := some "0xFF000000", size := some "0x1000",
    nodeid := some 5 }

/-- A one-device catalog, refcount 0. -/
def catUart : Catalog := [("uart0", ⟨0, uartDest⟩)]

/-- A resolved access entry referencing the catalog device `uart0`. -/
def accUart : AccEntry := ⟨"serial0", "uart0", "uart0_label", []⟩

/-- A domain whose access list references `uart0`. -/
def domWithRef : DomainNode := { name := "default", access := some [accUart] }

/-- A domain with an empty access list. -/
def domEmpty : DomainNode := { name := "A", access := some [] }

/-- A resolved access entry whose `spec_name` is in no catalog. -/
def accMystery : AccEntry := ⟨"devX", "mystery", "", []⟩

/-- A domain whose first access entry is untracked. -/
def domMystery : DomainNode := { name := "default", access := some [accMystery] }

/-- A bare output domain node, no properties attached yet. -/
def dnBare : DomainNode := { name := "d" }

/-- A memory hardware node with one decoded range `[0x1000, 0x1000+0x100]`.
-/
def memNodeW : HWNode :=
  { name := "memory@1000", device_type := some ["memory"],
    reg := some [0, 0x1000, 0, 0x100] }

/-- A hardware tree whose `memory@.*` query returns `memNodeW`. -/
def sdtMemW : SDT :=
  { cnodes := fun _ => [],
    nodes := fun s => if s == "memory@.*" then [memNodeW] else [],
    addr_node := fun _ => none }

/-- A hardware tree with a serial node at the `uart0` address. -/
def sdtSerial : SDT :=
  { cnodes := fun _ => [], nodes := fun _ => [],
    addr_node := fun a =>
      if a == "0xFF000000" then
        some { name := "serial0", label := "uart0_label" }
      else none }

/-! ### C1 — refcount conservation (the counting pass) -/

/-- C1: the ReferenceAccountant counting pass does not satisfy refcount
conservation. On the concrete two-domain input below — the first domain
references the catalog device `uart0`, the second has an empty access
list — the source's counting loop reads the stale `domain_node` variable
(the last built domain) instead of its loop variable `domain`, so the sum
of refcounts after the pass is `0` while the number of (domain,
list-entry) pairs whose `spec_name` is a catalog key is `1`. -/
theorem c1_counting_reads_stale_domain_node :
    countingPass [domWithRef, domEmpty] domEmpty catUart = .ok catUart ∧
    sumRefcounts catUart = 0 ∧
    specTotalPairs [domWithRef, domEmpty] catUart = 1 := by
  refine ⟨by decide, by decide, by decide⟩

/-! ### C2 — SRAM destination aborts the process -/

/-- C2: resolving the destination `OCM0` — whose name classifies as SRAM
through the memory pattern map and which carries no explicit `mem` flag —
terminates the whole run: `isospec_process_memory` reaches the
`os._exit(1)` debug block, and the exit propagates through the access
processing of the domain. -/
theorem c2_sram_destination_exits_process :
    isospec_process_access [recOcm] sdtNone jtOcm = .exit 1 ∧
    isospec_process_memory "OCM0" ocmDest sdtNone = .exit 1 := by
  refine ⟨by decide, by decide⟩

/-! ### C3 — unmatched SMID kills the whole batch -/

/-- C3: an unmatched SMID is not merely skipped. With the batch
`["XYZ", "APU0"]`, the unmatched first name leaves the local
`device_tree_compat` unbound, the next statement raises
`UnboundLocalError`, and the whole batch is lost — `APU0` produces no
entry, although alone it produces one. -/
theorem c3_unmatched_first_smid_kills_batch :
    isospec_process_cpus recSmidBad sdtCpu0 = .raise ∧
    isospec_process_cpus recSmidGood sdtCpu0 = .ok (some [apu0Entry]) := by
  refine ⟨by decide, by decide⟩

/-! ### C4 — untracked entry raises instead of being ignored -/

/-- C4: a list entry whose `spec_name` is not a catalog key is not ignored:
the `except` branch logs an f-string that reads the local `gdevice`, which
is unbound when no earlier lookup succeeded, so the first such entry
raises `NameError` and the counting pass dies. -/
theorem c4_untracked_entry_raises :
    countingPass [domMystery] domMystery catUart = .raise := by
  decide

/-! ### C7 — the core index is the first digit run, not the trailing one -/

/-- C7 counterexample: for the SMID name `APU1x2` the claim's "trailing
decimal integer" is `2`, and a hardware node literally named `cpu@2`
exists among the matches, so the claim predicts `cpumask = 0x4`; the code
instead extracts the first digit run `1` (`re.match(r'.*?(\d+)')`) and
produces `cpumask = 0x0`. -/
theorem c7_core_index_not_trailing :
    isospec_process_cpus recSmidMixed sdtCpu2 =
      .ok (some [⟨"cluster0", "APU1x2", "cluster0", "0x0", .b false, some "0x3"⟩]) ∧
    trailingDigitRun "APU1x2" = some "2" ∧
    firstDigitRun "APU1x2" = some "1" ∧
    (sdtCpu2.cnodes "arm,cortex-a72").any (fun c => c.name == "cpu@2") = true ∧
    hexStr (set_bit 0 2) = "0x4" ∧ ("0x4" : String) ≠ "0x0" := by
  refine ⟨by decide, by decide, by decide, by decide, by decide, by decide⟩

/-! ### C9 — the empty access list is attached anyway -/

/-- C9 counterexample: a subsystem whose access list is present but empty
gets the serialized empty `access` array attached (`some []`), while the
empty `cpus`, `memory` and `sram` lists are not attached — so "an
absent or empty list is simply not attached" does not hold for the access
list. -/
theorem c9_empty_access_list_attached :
    process_domain (some []) sdtNone jtEmpty dnBare =
      .ok { name := "d", access := some [], memory := none, sram := none,
            cpus := none } := by
  decide

/-! ### C6 — inclusive containment boundary of the memory match -/

/-- C6: in memory-kind resolution, for a candidate node whose
`device_type` includes `"memory"`, an entry is emitted for a decoded
register pair exactly when the destination's start address `a` satisfies
`start ≤ a ≤ start + size`, both bounds inclusive — so `a = start + size`
is a match. -/
theorem c6_memory_containment_inclusive (a : Nat) (name : String)
    (n : HWNode) (dts : List String) (reg : List Nat)
    (hdt : n.device_type = some dts) (hmem : dts.contains "memory" = true)
    (hreg : n.reg = some reg) (e : MemEntry) :
    e ∈ node_mem_entries a name n ↔
      ∃ ch ∈ chunks4 reg,
        e = ⟨name, name, hexStr (chunkStart ch), hexStr (chunkSize ch)⟩ ∧
        chunkStart ch ≤ a ∧ a ≤ chunkStart ch + chunkSize ch := by
  unfold node_mem_entries
  rw [hdt, hreg]
  simp only [hmem, if_true, List.mem_filterMap]
  constructor
  · rintro ⟨ch, hch, hfe⟩
    split at hfe
    · rename_i hcond
      exact ⟨ch, hch, (Option.some_inj.mp hfe).symm, hcond.1, hcond.2⟩
    · exact absurd hfe (by simp)
  · rintro ⟨ch, hch, he, h1, h2⟩
    refine ⟨ch, hch, ?_⟩
    rw [if_pos ⟨h1, h2⟩, he]

/-- Witness for C6: the destination address `0x1100` is exactly
`start + size` of the decoded range `(0x1000, 0x100)` of `memNodeW`, and
the entry is emitted. -/
theorem c6_memory_containment_inclusive_witness :
    (⟨"DDR0", "DDR0", hexStr 0x1000, hexStr 0x100⟩ : MemEntry) ∈
      node_mem_entries 0x1100 "DDR0" memNodeW :=
  (c6_memory_containment_inclusive 0x1100 "DDR0" memNodeW ["memory"]
      [0, 0x1000, 0, 0x100] rfl (by decide) rfl _).mpr
    ⟨[0, 0x1000, 0, 0x100], by decide, by decide, by decide, by decide⟩

/-! ### C10 — emitted values come from the hardware ranges -/

/-- Every entry the per-node memory loop emits carries the decoded
hardware range of some register chunk of that node, rendered as hex
strings, with `dev` and `spec_name` both the destination name. -/
theorem node_mem_entries_sound (a : Nat) (nm : String) (n : HWNode)
    (e : MemEntry) (he : e ∈ node_mem_entries a nm n) :
    ∃ dts reg, n.device_type = some dts ∧ n.reg = some reg ∧
      ∃ ch ∈ chunks4 reg,
        e = ⟨nm, nm, hexStr (chunkStart ch), hexStr (chunkSize ch)⟩ := by
  unfold node_mem_entries at he
  split at he
  · rename_i dts reg hdt hreg
    split at he
    · rw [List.mem_filterMap] at he
      obtain ⟨ch, hch, hfe⟩ := he
      split at hfe
      · exact ⟨dts, reg, hdt, hreg, ch, hch, (Option.some_inj.mp hfe).symm⟩
      · exact absurd hfe (by simp)
    · exact absurd he (by simp)
  · exact absurd he (by simp)

/-- A `mem`-flagged destination, with addr/size present and parsable. -/
def ddrDest : Dest :=
  { name := "DDR0", addr := some "0x1100", size := some "0x100",
    mem := some true }

/-- A `mem`-flagged destination with an SRAM-classified name. -/
def ocmMemDest : Dest :=
  { name := "OCM0", addr := some "0xFFFC0000", size := some "0x10000",
    mem := some true }

/-- C10: for a memory-kind destination (explicit `mem` flag) whose
hardware query finds candidate nodes, the result is one entry per
containing decoded range across all candidates, and every emitted entry's
`start`/`size` are the hex strings of the hardware node's decoded range
values — not the destination's own `addr`/`size`; for an SRAM-classified
destination (hardware memory query empty, name classifying as sram) with
no hardware node at its address, the single emitted entry carries the
spec's `addr` and `size` strings verbatim. -/
theorem c10_memory_values_from_hardware (name : String) (dest : Dest)
    (sdt : SDT) (astr sstr : String) (a : Nat)
    (hm : dest.mem.isSome = true) (ha : dest.addr = some astr)
    (hs : dest.size = some sstr) (hp : pyIntHex astr = some a) :
    (∀ nodes, sdt.nodes "memory@.*" = nodes → nodes ≠ [] →
      isospec_process_memory name dest sdt =
        .ok (nodes.flatMap (node_mem_entries a name)) ∧
      ∀ e ∈ nodes.flatMap (node_mem_entries a name),
        ∃ n ∈ nodes, ∃ dts reg, n.device_type = some dts ∧ n.reg = some reg ∧
          ∃ ch ∈ chunks4 reg,
            e = ⟨name, name, hexStr (chunkStart ch), hexStr (chunkSize ch)⟩) ∧
    (sdt.nodes "memory@.*" = [] → isospec_memory_type name = "sram" →
      sdt.addr_node astr = none →
      isospec_process_memory name dest sdt = .ok [⟨name, name, astr, sstr⟩]) := by
  obtain ⟨mv, hmv⟩ := Option.isSome_iff_exists.mp hm
  constructor
  · intro nodes hnodes hne
    constructor
    · have hne' : nodes.isEmpty = false := by
        cases nodes with
        | nil => exact absurd rfl hne
        | cons x xs => rfl
      unfold isospec_process_memory
      rw [hmv, ha, hs]
      dsimp only
      rw [hp]
      simp [hnodes, hne']
    · intro e he
      rw [List.mem_flatMap] at he
      obtain ⟨n, hn, hen⟩ := he
      obtain ⟨dts, reg, h1, h2, ch, hch, hche⟩ := node_mem_entries_sound a name n e hen
      exact ⟨n, hn, dts, reg, h1, h2, ch, hch, hche⟩
  · intro hempty htype haddr
    have h1 : (("sram" : String) == "memory") = false := by decide
    have h2 : (("sram" : String) == "sram") = true := by decide
    unfold isospec_process_memory
    rw [hmv, ha, hs]
    dsimp only
    rw [hp]
    simp [hempty, htype, haddr, h1, h2]

/-- Witness for C10: the `mem`-flagged `DDR0` destination at address
`0x1100` yields the decoded hardware range of `memNodeW`; the `OCM0`
destination with an empty hardware memory query and no address match
yields its spec strings verbatim. -/
theorem c10_memory_values_from_hardware_witness :
    isospec_process_memory "DDR0" ddrDest sdtMemW =
      .ok ([memNodeW].flatMap (node_mem_entries 0x1100 "DDR0")) ∧
    isospec_process_memory "OCM0" ocmMemDest sdtNone =
      .ok [⟨"OCM0", "OCM0", "0xFFFC0000", "0x10000"⟩] :=
  ⟨((c10_memory_values_from_hardware "DDR0" ddrDest sdtMemW "0x1100" "0x100"
      0x1100 rfl rfl rfl (by decide)).1 [memNodeW] rfl (by decide)).1,
   (c10_memory_values_from_hardware "OCM0" ocmMemDest sdtNone "0xFFFC0000"
      "0x10000" 0xFFFC0000 rfl rfl rfl (by decide)).2 rfl (by decide) rfl⟩

/-- The only values `lookupCpuMap` can return are the two entries of the
static map. -/
theorem lookupCpuMap_mem (name : String) (m : CpuMapEntry)
    (h : lookupCpuMap name = some m) :
    m = ⟨"arm,cortex-a72", some 3⟩ ∨ m = ⟨"arm,cortex-r5", none⟩ := by
  unfold lookupCpuMap iso_cpus_to_device_tree_map at h
  dsimp [List.foldl] at h
  split at h
  · exact Or.inr (Option.some_inj.mp h).symm
  · split at h
    · exact Or.inl (Option.some_inj.mp h).symm
    · exact absurd h (by simp)

/-- The single-bit fold of the core-mask loop: starting from `m`, setting
bit `i` for every node satisfying `p` yields `set_bit m i` when any node
matches and `m` otherwise. -/
theorem foldl_set_bit_any (i : Nat) (p : HWNode → Bool) (l : List HWNode)
    (m : Nat) :
    l.foldl (fun acc c => if p c then set_bit acc i else acc) m =
      if l.any p then set_bit m i else m := by
  induction l generalizing m with
  | nil => simp
  | cons hd tl ih =>
    simp only [List.foldl_cons, List.any_cons]
    by_cases h : p hd = true
    · have hidem : set_bit (set_bit m i) i = set_bit m i := by
        unfold set_bit
        rw [Nat.or_assoc, Nat.or_self]
      rw [if_pos h, ih]
      simp [h, hidem]
    · rw [if_neg h, ih]
      simp only [Bool.not_eq_true] at h
      simp [h]

/-- `set_bit 0 i = 2 ^ i`. -/
theorem set_bit_zero (i : Nat) : set_bit 0 i = 2 ^ i := by
  unfold set_bit
  rw [Nat.zero_or, Nat.shiftLeft_eq, one_mul]

/-- C7 (amended): for every SMID whose name maps through the CPU pattern
map to a compatible string with matching hardware nodes (first node's
cluster parent present), the emitted entry's core mask is computed from
the **first** decimal run of the name (not the trailing one, which the
counterexample refutes): no digits yields `0xF`; a first run `num` yields
`2 ^ num` exactly when some matched node's name contains `cpu@num`, and
`0` when no such node exists — not an error. -/
theorem c7_cpu_mask_arithmetic (cpu_flags : List (String × JVal)) (sdt : SDT)
    (dtc : Option String) (cpu_name : String) (m : CpuMapEntry)
    (n0 : HWNode) (rest : List HWNode) (cl : Cluster)
    (hmap : lookupCpuMap cpu_name = some m)
    (hnodes : sdt.cnodes m.compatible = n0 :: rest)
    (hpar : n0.parent = some cl) :
    ∃ e, cpuStep cpu_flags sdt dtc cpu_name = .emit (some m.compatible) e ∧
      e.spec_name = cpu_name ∧
      e.cpumask = hexStr (match firstDigitRun cpu_name with
        | none => 0xf
        | some num =>
          if (n0 :: rest).any (fun c => strContains c.name ("cpu@" ++ num)) then
            2 ^ decToNat num
          else 0) := by
  have hcompat : (m.compatible == "") = false := by
    rcases lookupCpuMap_mem cpu_name m hmap with h | h <;> subst h <;> decide
  unfold cpuStep
  rw [hmap]
  dsimp only
  rw [if_neg (by simp [hcompat]), hnodes]
  dsimp only
  rw [hpar]
  dsimp only
  cases hfd : firstDigitRun cpu_name with
  | none =>
    dsimp only
    split <;> exact ⟨_, rfl, rfl, rfl⟩
  | some num =>
    dsimp only
    rw [foldl_set_bit_any, set_bit_zero (decToNat num)]
    split <;> exact ⟨_, rfl, rfl, rfl⟩

/-- Witness for C7: the SMID `APU2` against a hardware tree whose only
`arm,cortex-a72` node is `cpu@2`. -/
theorem c7_cpu_mask_arithmetic_witness :
    ∃ e, cpuStep [] sdtCpu2 none "APU2" = .emit (some "arm,cortex-a72") e ∧
      e.spec_name = "APU2" ∧
      e.cpumask = hexStr (match firstDigitRun "APU2" with
        | none => 0xf
        | some num =>
          if (cpuNode2 :: []).any (fun c => strContains c.name ("cpu@" ++ num)) then
            2 ^ decToNat num
          else 0) :=
  c7_cpu_mask_arithmetic [] sdtCpu2 none "APU2" ⟨"arm,cortex-a72", some 3⟩
    cpuNode2 [] cluster0 (by decide) (by decide) rfl

/-! ### C9 — the attachment rule, as the code implements it -/

/-- C9 (amended): for every processed subsystem the `cpus`, `memory` and
`sram` lists are attached only when nonempty (an empty list leaves the
property absent), while the `access` list is attached unconditionally —
possibly empty — whenever the subsystem has an access property; a
subsystem without an access property gets none of the four properties. -/
theorem c9_attachment_rule (recs : List AccessRec) (sdt : SDT)
    (jt : SpecTree) (dn : DomainNode) (L : FourLists)
    (h : isospec_process_access recs sdt jt = .ok L) :
    process_domain (some recs) sdt jt dn =
      .ok { dn with
            cpus := if L.cpus.isEmpty then dn.cpus else some L.cpus,
            memory := if L.memory.isEmpty then dn.memory else some L.memory,
            sram := if L.sram.isEmpty then dn.sram else some L.sram,
            access := some L.access } ∧
    process_domain none sdt jt dn = .ok dn := by
  constructor
  · unfold process_domain
    dsimp only
    rw [h]
  · rfl

/-- Witness for C9: an empty access list against the bare domain node. -/
theorem c9_attachment_rule_witness :
    process_domain (some []) sdtNone jtEmpty dnBare =
      .ok { dnBare with
            cpus := if (FourLists.mk [] [] [] []).cpus.isEmpty then dnBare.cpus
                    else some (FourLists.mk [] [] [] []).cpus,
            memory := if (FourLists.mk [] [] [] []).memory.isEmpty then dnBare.memory
                      else some (FourLists.mk [] [] [] []).memory,
            sram := if (FourLists.mk [] [] [] []).sram.isEmpty then dnBare.sram
                    else some (FourLists.mk [] [] [] []).sram,
            access := some (FourLists.mk [] [] [] []).access } ∧
    process_domain none sdtNone jtEmpty dnBare = .ok dnBare :=
  c9_attachment_rule [] sdtNone jtEmpty dnBare ⟨[], [], [], []⟩ rfl

/-! ### C8 — catalog completeness -/

/-- One step of the dictionary lookup. -/
theorem dictGet_cons (p : String × CatEntry) (rest : Catalog) (k' : String) :
    dictGet (p :: rest) k' =
      if p.1 = k' then some p.2 else dictGet rest k' := by
  unfold dictGet
  by_cases h : p.1 = k'
  · rw [List.find?_cons_of_pos _ (by simp [h]), if_pos h]
    rfl
  · rw [List.find?_cons_of_neg _ (by simp [h]), if_neg h]

/-- Reading back through a Python-dict insertion. -/
theorem dictGet_dictInsert (dd : Catalog) (k : String) (v : CatEntry)
    (k' : String) :
    dictGet (dictInsert dd k v) k' = if k' = k then some v else dictGet dd k' := by
  induction dd with
  | nil =>
    show dictGet [(k, v)] k' = _
    rw [dictGet_cons]
    by_cases h : k' = k
    · simp [h]
    · rw [if_neg (fun hh => h hh.symm), if_neg h]
  | cons p rest ih =>
    unfold dictInsert
    by_cases hp : p.1 = k
    · rw [if_pos (by simp [hp]), dictGet_cons, dictGet_cons]
      by_cases h : k' = k
      · simp [h]
      · rw [if_neg (fun hh => h hh.symm), if_neg h,
          if_neg (fun hh => h (hp ▸ hh).symm)]
    · rw [if_neg (by simp [hp]), dictGet_cons, dictGet_cons, ih]
      by_cases h1 : p.1 = k'
      · have hk : ¬ k' = k := fun hh => hp (h1.trans hh)
        rw [if_pos h1, if_neg hk, if_pos h1]
      · rw [if_neg h1, if_neg h1]

/-- `catalogEligible` unfolded to the claim's wording. -/
theorem catalogEligible_iff (d : Dest) :
    catalogEligible d = true ↔
      (d.nodeid.isSome = true ∨ d.mem = some true) := by
  unfold catalogEligible
  cases d.mem <;> simp

/-- Key presence after the destination loop of one cell. -/
theorem collectDests_isSome (l : List Dest) (dd : Catalog) (nm : String) :
    (dictGet (collectDests dd l) nm).isSome = true ↔
      (dictGet dd nm).isSome = true ∨
        ∃ d ∈ l, d.name = nm ∧ catalogEligible d = true := by
  induction l generalizing dd with
  | nil => simp [collectDests]
  | cons d rest ih =>
    simp only [collectDests]
    by_cases hq : catalogEligible d = true
    · rw [if_pos hq, ih, dictGet_dictInsert]
      by_cases hn : nm = d.name
      · simp [hn, hq]
      · simp [hn, Ne.symm hn, hq]
    · rw [if_neg hq, ih]
      simp [hq]

/-- Provenance of a catalog entry after the destination loop of one
cell. -/
theorem collectDests_some (l : List Dest) (dd : Catalog) (nm : String)
    (e : CatEntry) (h : dictGet (collectDests dd l) nm = some e) :
    dictGet dd nm = some e ∨
      (e.refcount = 0 ∧ ∃ d ∈ l, e.dest = d ∧ d.name = nm ∧
        catalogEligible d = true) := by
  induction l generalizing dd with
  | nil => exact Or.inl h
  | cons d rest ih =>
    simp only [collectDests] at h
    by_cases hq : catalogEligible d = true
    · rw [if_pos hq] at h
      rcases ih _ h with h' | h'
      · rw [dictGet_dictInsert] at h'
        by_cases hn : nm = d.name
        · rw [if_pos hn] at h'
          refine Or.inr ?_
          have he : e = ⟨0, d⟩ := (Option.some_inj.mp h').symm
          subst he
          exact ⟨rfl, d, by simp, rfl, hn.symm, hq⟩
        · rw [if_neg hn] at h'
          exact Or.inl h'
      · obtain ⟨hrc, d', hd', hrest⟩ := h'
        exact Or.inr ⟨hrc, d', by simp [hd'], hrest⟩
    · rw [if_neg hq] at h
      rcases ih _ h with h' | h'
      · exact Or.inl h'
      · obtain ⟨hrc, d', hd', hrest⟩ := h'
        exact Or.inr ⟨hrc, d', by simp [hd'], hrest⟩

/-- Key presence after the whole cell loop. -/
theorem collectCells_isSome (cells : List Cell) (dd : Catalog) (nm : String) :
    (dictGet (collectCells dd cells) nm).isSome = true ↔
      (dictGet dd nm).isSome = true ∨
        ∃ cell ∈ cells, ∃ l, cell.dests = some l ∧
          ∃ d ∈ l, d.name = nm ∧ catalogEligible d = true := by
  induction cells generalizing dd with
  | nil => simp [collectCells]
  | cons cell rest ih =>
    simp only [collectCells]
    cases hc : cell.dests with
    | none =>
      rw [ih]
      simp [hc]
    | some l =>
      rw [ih, collectDests_isSome]
      constructor
      · rintro ((h | ⟨d, hd, hprop⟩) | ⟨c, hcr, hrest⟩)
        · exact Or.inl h
        · exact Or.inr ⟨cell, List.mem_cons_self cell rest, l, hc, d, hd, hprop⟩
        · exact Or.inr ⟨c, List.mem_cons_of_mem cell hcr, hrest⟩
      · rintro (h | ⟨c, hcmem, l', hl', hprop⟩)
        · exact Or.inl (Or.inl h)
        · rcases List.mem_cons.mp hcmem with hceq | hcr
          · subst hceq
            rw [hc] at hl'
            obtain rfl := Option.some_inj.mp hl'
            exact Or.inl (Or.inr hprop)
          · exact Or.inr ⟨c, hcr, l', hl', hprop⟩

/-- Provenance of a catalog entry after the whole cell loop. -/
theorem collectCells_some (cells : List Cell) (dd : Catalog) (nm : String)
    (e : CatEntry) (h : dictGet (collectCells dd cells) nm = some e) :
    dictGet dd nm = some e ∨
      (e.refcount = 0 ∧ ∃ cell ∈ cells, ∃ l, cell.dests = some l ∧
        e.dest ∈ l ∧ e.dest.name = nm ∧ catalogEligible e.dest = true) := by
  induction cells generalizing dd with
  | nil => exact Or.inl h
  | cons cell rest ih =>
    simp only [collectCells] at h
    cases hc : cell.dests with
    | none =>
      rw [hc] at h
      rcases ih _ h with h' | ⟨hrc, c, hcr, hrest⟩
      · exact Or.inl h'
      · exact Or.inr ⟨hrc, c, List.mem_cons_of_mem cell hcr, hrest⟩
    | some l =>
      rw [hc] at h
      rcases ih _ h with h' | ⟨hrc, c, hcr, hrest⟩
      · rcases collectDests_some l dd nm e h' with h'' | ⟨hrc, d, hd, hde, hdn, hq⟩
        · exact Or.inl h''
        · subst hde
          exact Or.inr ⟨hrc, cell, List.mem_cons_self cell rest, l, hc, hd, hdn, hq⟩
      · exact Or.inr ⟨hrc, c, List.mem_cons_of_mem cell hcr, hrest⟩

/-- C8: after `device_collect` runs over the device catalog section, an
entry exists for a name iff some cell's destination list holds a
destination of that name carrying a `nodeid` key or a `mem` flag set to
true; and every entry has refcount 0 and stores such a destination
record. -/
theorem c8_catalog_completeness (cells : List Cell) (nm : String) :
    ((dictGet (device_collect cells) nm).isSome = true ↔
      ∃ cell ∈ cells, ∃ l, cell.dests = some l ∧
        ∃ d ∈ l, d.name = nm ∧
          (d.nodeid.isSome = true ∨ d.mem = some true)) ∧
    ∀ e, dictGet (device_collect cells) nm = some e →
      e.refcount = 0 ∧ ∃ cell ∈ cells, ∃ l, cell.dests = some l ∧
        e.dest ∈ l ∧ e.dest.name = nm ∧
        (e.dest.nodeid.isSome = true ∨ e.dest.mem = some true) := by
  constructor
  · rw [device_collect, collectCells_isSome]
    have hnone : dictGet [] nm = none := rfl
    simp only [hnone, Option.isSome_none, Bool.false_eq_true, false_or]
    constructor
    · rintro ⟨c, hcm, l, hl, d, hd, hdn, hq⟩
      exact ⟨c, hcm, l, hl, d, hd, hdn, (catalogEligible_iff d).mp hq⟩
    · rintro ⟨c, hcm, l, hl, d, hd, hdn, hq⟩
      exact ⟨c, hcm, l, hl, d, hd, hdn, (catalogEligible_iff d).mpr hq⟩
  · intro e he
    rcases collectCells_some cells [] nm e he with h' | ⟨hrc, c, hcm, l, hl, hdm, hdn, hq⟩
    · exact absurd h' (by simp [dictGet, List.find?])
    · exact ⟨hrc, c, hcm, l, hl, hdm, hdn, (catalogEligible_iff e.dest).mp hq⟩

/-- Witness for C8: a one-cell catalog section holding `uartDest` (which
carries a `nodeid`). -/
theorem c8_catalog_completeness_witness :
    (dictGet (device_collect [⟨some [uartDest]⟩]) "uart0").isSome = true ∧
    (⟨0, uartDest⟩ : CatEntry).refcount = 0 :=
  ⟨(c8_catalog_completeness [⟨some [uartDest]⟩] "uart0").1.mpr
      ⟨⟨some [uartDest]⟩, by simp, [uartDest], rfl, uartDest, by simp, rfl,
        Or.inl rfl⟩,
   ((c8_catalog_completeness [⟨some [uartDest]⟩] "uart0").2 ⟨0, uartDest⟩
      (by decide)).1⟩

/-! ### C5 — broadcast completeness -/

/-- The effect of adding one classified broadcast entry to one domain. -/
def applyB (c : BClass) (dn : DomainNode) : DomainNode :=
  match c with
  | .skip => dn
  | .dev e => { dn with access := some (dn.access.getD [] ++ [e]) }
  | .mem e => { dn with memory := some (dn.memory.getD [] ++ [e]) }

/-- `addToDomain` never raises on a domain with an `access` property, and
acts as `applyB`. -/
theorem addToDomain_ok (c : BClass) (dn : DomainNode)
    (h : dn.access.isSome = true) :
    addToDomain c dn = .ok (applyB c dn) := by
  obtain ⟨l, hl⟩ := Option.isSome_iff_exists.mp h
  cases c with
  | skip => rfl
  | dev e =>
    unfold addToDomain applyB
    rw [hl]
    rfl
  | mem e => rfl

/-- `applyB` preserves the presence of the `access` property. -/
theorem applyB_access (c : BClass) (dn : DomainNode)
    (h : dn.access.isSome = true) :
    (applyB c dn).access.isSome = true := by
  cases c with
  | skip => exact h
  | dev e => rfl
  | mem e => exact h

/-- The domain loop of one broadcast device. -/
theorem addToDomains_ok (c : BClass) (ds : List DomainNode)
    (h : ∀ dn ∈ ds, dn.access.isSome = true) :
    addToDomains c ds = .ok (ds.map (applyB c)) := by
  induction ds with
  | nil => rfl
  | cons dn rest ih =>
    unfold addToDomains
    rw [addToDomain_ok c dn (h dn (List.mem_cons_self dn rest)),
      ih (fun d hd => h d (List.mem_cons_of_mem dn hd))]
    rfl

/-- Broadcasting nothing changes nothing. -/
theorem bcastApply_nil (dn : DomainNode) (h : dn.access.isSome = true) :
    bcastApply [] [] dn = dn := by
  obtain ⟨l, hl⟩ := Option.isSome_iff_exists.mp h
  cases dn with
  | mk nm acc mem sr cp =>
    simp only at hl
    subst hl
    unfold bcastApply
    cases mem <;> simp

/-- Composing one device's effect with the remaining broadcasts. -/
theorem bcastApply_applyB (c : BClass) (dn : DomainNode)
    (aR : List AccEntry) (mR : List MemEntry)
    (h : dn.access.isSome = true) :
    bcastApply aR mR (applyB c dn) =
      bcastApply (match c with | .dev e => e :: aR | _ => aR)
                 (match c with | .mem e => e :: mR | _ => mR) dn := by
  obtain ⟨l, hl⟩ := Option.isSome_iff_exists.mp h
  cases c with
  | skip => rfl
  | dev e =>
    cases dn with
    | mk nm acc mem sr cp =>
      simp only at hl
      subst hl
      unfold applyB bcastApply
      simp
  | mem e =>
    cases dn with
    | mk nm acc mem sr cp =>
      unfold applyB bcastApply
      cases mem <;> simp

/-- Unfolding the broadcast access list over the first catalog entry. -/
theorem bcastAcc_cons (k : String) (ce : CatEntry) (rest : Catalog)
    (sdt : SDT) :
    bcastAcc ((k, ce) :: rest) sdt =
      if ce.refcount == 0 then
        (match classifyUnref sdt ce.dest with
         | .dev e => e :: bcastAcc rest sdt
         | _ => bcastAcc rest sdt)
      else bcastAcc rest sdt := by
  unfold bcastAcc
  rw [List.filterMap_cons]
  cases hz : (ce.refcount == 0) <;>
    cases hc : classifyUnref sdt ce.dest <;> simp [hz, hc]

/-- Unfolding the broadcast memory list over the first catalog entry. -/
theorem bcastMem_cons (k : String) (ce : CatEntry) (rest : Catalog)
    (sdt : SDT) :
    bcastMem ((k, ce) :: rest) sdt =
      if ce.refcount == 0 then
        (match classifyUnref sdt ce.dest with
         | .mem e => e :: bcastMem rest sdt
         | _ => bcastMem rest sdt)
      else bcastMem rest sdt := by
  unfold bcastMem
  rw [List.filterMap_cons]
  cases hz : (ce.refcount == 0) <;>
    cases hc : classifyUnref sdt ce.dest <;> simp [hz, hc]

/-- A built domain with no `access` property (a subsystem without an
access list leaves all four properties off). -/
def domNoAccess : DomainNode := { name := "noacc" }

/-- C5 counterexample: the broadcast pass does not append the
zero-refcount device `uart0` (which has a hardware address match in
`sdtSerial`) exactly once to every domain's access list — when the domain
list contains a domain without an `access` property (a reachable state: a
subsystem with no access list), the un-guarded
`json.loads(domain["access"].value)` raises and the pass aborts, so
nothing is appended to any domain. -/
theorem c5_broadcast_needs_access_property :
    broadcastPass catUart [domWithRef, domNoAccess] sdtSerial = .raise := by
  decide

/-- C5 (amended): when every domain of the built list carries an `access`
property — which holds whenever every subsystem had an access list, and
is what the counterexample shows is needed — the broadcast pass
terminates normally and its effect on every domain is exactly one append
of the same two lists: each zero-refcount catalog device contributes
exactly one access entry (when a hardware address match exists), else
exactly one memory entry (when the destination carries `mem`, `addr` and
`size`), else nothing, and the entry lands in the corresponding list of
every domain of the list and changes nothing else (names, `sram` and
`cpus` properties are untouched, and no other domain exists to gain
it). -/
theorem c5_broadcast_completeness (dd : Catalog) (ds : List DomainNode)
    (sdt : SDT) (h : ∀ dn ∈ ds, dn.access.isSome = true) :
    broadcastPass dd ds sdt =
      .ok (ds.map (bcastApply (bcastAcc dd sdt) (bcastMem dd sdt))) := by
  induction dd generalizing ds with
  | nil =>
    have hmap : ds.map (bcastApply [] []) = ds.map id :=
      List.map_congr_left (fun dn hdn => bcastApply_nil dn (h dn hdn))
    simp only [broadcastPass, bcastAcc, bcastMem, List.filterMap_nil]
    rw [hmap, List.map_id]
  | cons p rest ih =>
    obtain ⟨k, ce⟩ := p
    rw [bcastAcc_cons, bcastMem_cons]
    unfold broadcastPass
    by_cases hz : (ce.refcount == 0) = true
    · rw [if_pos hz, if_pos hz, if_pos hz,
        addToDomains_ok (classifyUnref sdt ce.dest) ds h]
      have h' : ∀ dn ∈ ds.map (applyB (classifyUnref sdt ce.dest)),
          dn.access.isSome = true := by
        intro dn' hdn'
        obtain ⟨dn, hdn, rfl⟩ := List.mem_map.mp hdn'
        exact applyB_access _ dn (h dn hdn)
      dsimp only
      rw [ih _ h', List.map_map]
      congr 1
      apply List.map_congr_left
      intro dn hdn
      exact bcastApply_applyB (classifyUnref sdt ce.dest) dn _ _ (h dn hdn)
    · rw [if_neg hz, if_neg hz, if_neg hz, ih ds h]

/-- Witness for C5: the zero-referenced catalog device `uart0` has a
hardware node in `sdtSerial`, so the broadcast pass appends its access
entry to both domains. -/
theorem c5_broadcast_completeness_witness :
    broadcastPass catUart [domWithRef, domEmpty] sdtSerial =
      .ok ([domWithRef, domEmpty].map
        (bcastApply (bcastAcc catUart sdtSerial) (bcastMem catUart sdtSerial))) :=
  c5_broadcast_completeness catUart [domWithRef, domEmpty] sdtSerial (by decide)

end Isospec
